import Mathlib

set_option maxRecDepth 8000

/-!
Shallow embedding of the `mca-rs` region/chunk decoder
(`src/region.rs`, `src/chunks/chunk.rs`, `src/chunks/section.rs`,
`src/chunks/block.rs`) together with theorems settling the claims about it.

Machine integers are modelled as `Nat`/`Int` with explicit wrapping
(`% 2^w`) exactly where the Rust code can overflow with overflow checks
disabled (release profile); a Rust `panic` (slice out of bounds, index out
of bounds) is modelled as an explicit `panic` outcome of the embedded
function.  The two external collaborators (the compression codecs and the
`nbt_rs` tree-format parser) are passed in as function parameters, per the
spec they are consumed as black boxes.
-/

namespace Mca

/-- Result of running a piece of Rust code that can return a value, return an
error, or panic (out-of-bounds slice or index). -/
inductive PRes (ε α : Type) where
  | ok (a : α)
  | err (e : ε)
  | panic

/-- Result of running Rust code that returns a value or panics. -/
inductive PanicOr (α : Type) where
  | ret (a : α)
  | panic

/-- Boolean test for the panic outcome (used to state panic-freedom
hypotheses decidably). -/
def PanicOr.isPanic : PanicOr α → Bool
  | .panic => true
  | .ret _ => false

/-- Model of an NBT value, as produced by the external `nbt_rs` tree-format
parser: a self-describing tree offering typed field lookup by name. -/
inductive Nbt where
  | int (v : Int)
  | str (s : String)
  | longArray (xs : List Int)
  | listTag (xs : List Nbt)
  | compound (fields : List (String × Nbt))

/-- Field lookup inside an NBT compound (`get_field!` on a compound). -/
def nbtLookup (fields : List (String × Nbt)) (name : String) : Option Nbt :=
  match fields with
  | [] => none
  | (n, v) :: rest => if n = name then some v else nbtLookup rest name

/-- Typed accessor `as_int`. -/
def asInt : Nbt → Option Int
  | .int v => some v
  | _ => none

/-- Typed accessor `as_string`. -/
def asString : Nbt → Option String
  | .str s => some s
  | _ => none

/-- Typed accessor `as_long_array`. -/
def asLongArray : Nbt → Option (List Int)
  | .longArray xs => some xs
  | _ => none

/-- Typed accessor `as_compound`. -/
def asCompound : Nbt → Option (List (String × Nbt))
  | .compound fs => some fs
  | _ => none

/-- Typed accessor chain `as_list.as_compound`: a list tag all of whose
elements are compounds. -/
def asListCompound (t : Nbt) : Option (List (List (String × Nbt))) :=
  match t with
  | .listTag xs => goListCompound xs
  | _ => none
where
  goListCompound : List Nbt → Option (List (List (String × Nbt)))
  | [] => some []
  | x :: rest =>
    match asCompound x, goListCompound rest with
    | some fs, some fss => some (fs :: fss)
    | _, _ => none

/-- Composite of field lookup and a typed accessor (the `get_field!` macro,
with absence and wrong declared type collapsing to the same failure). -/
def getField (fields : List (String × Nbt)) (name : String)
    (acc : Nbt → Option β) : Option β :=
  (nbtLookup fields name).bind acc

/-- Mirrors `Block` in `src/chunks/block.rs`: a voxel identity (name) plus
optional properties compound. -/
structure Block where
  name : String
  properties : Option (List (String × Nbt))

/-- Mirrors `Section` in `src/chunks/section.rs`: by construction the list
always has exactly 4096 entries. -/
structure Section where
  blocks : List Block

/-- Mirrors `Section::get_block_pos`: `(((y << 4) | z) << 4) | x` on `u32`
(inputs are `u8`, so no 32-bit wrap can occur). -/
def Section.get_block_pos (x y z : Nat) : Nat :=
  (((y <<< 4) ||| z) <<< 4) ||| x

/-- Mirrors `Section::get_block`: bounds-checked read. -/
def Section.get_block (s : Section) (x y z : Nat) : Option Block :=
  if 16 ≤ x ∨ 16 ≤ y ∨ 16 ≤ z then none
  else s.blocks[Section.get_block_pos x y z]?

/-- Mirrors `Section::set_block`: bounds-checked write, out-of-bounds calls
are a silent no-op. -/
def Section.set_block (s : Section) (x y z : Nat) (b : Block) : Section :=
  if 16 ≤ x ∨ 16 ≤ y ∨ 16 ≤ z then s
  else ⟨s.blocks.set (Section.get_block_pos x y z) b⟩

/-- Two-sided complement wrap of an integer into the `i16` range, the effect
of Rust `as i16` casts and of `i16` arithmetic with overflow checks off. -/
def i16wrap (v : Int) : Int := (v + 32768) % 65536 - 32768

/-- Two-sided complement wrap into the `i32` range. -/
def i32wrap (v : Int) : Int := (v + 2147483648) % 4294967296 - 2147483648

/-- Reinterpretation of an `i32` value as `usize` (`as usize` on a possibly
negative value: two's complement on 64 bits). -/
def usizeOfI32 (v : Int) : Nat := (v % (18446744073709551616 : Int)).toNat

/-- Mirrors `Chunk` in `src/chunks/chunk.rs`: a vertical stack of sections
plus the bottom section index `y_pos` (an `i32`). -/
structure Chunk where
  y_pos : Int
  sections : List Section

/-- Mirrors `Chunk::get_y_range`: `start = y_pos as i16 * 16`,
`end = start + sections.len() as i16 * 16`, all in wrapping `i16`
arithmetic.  Returned as the pair (start, end) of the half-open range. -/
def Chunk.get_y_range (c : Chunk) : Int × Int :=
  let start := i16wrap (i16wrap c.y_pos * 16)
  let stop := i16wrap (start + i16wrap (i16wrap (c.sections.length : Int) * 16))
  (start, stop)

/-- Mirrors `Chunk::get`: soft bounds checks, then
`local_y = y as i32 - y_pos * 16`, `section = local_y >> 4` (as `usize`),
`block = local_y as u8 & 0xF`, and an unchecked index into `sections`
(modelled as a panic when out of range). -/
def Chunk.get (c : Chunk) (x : Nat) (y : Int) (z : Nat) : PanicOr (Option Block) :=
  let r := c.get_y_range
  if 16 ≤ x ∨ ¬(r.1 ≤ y ∧ y < r.2) ∨ 16 ≤ z then .ret none
  else
    let localY := usizeOfI32 (i32wrap (y - i32wrap (c.y_pos * 16)))
    let sectionIdx := localY / 16
    let blockY := localY % 256 % 16
    match c.sections[sectionIdx]? with
    | none => .panic
    | some s => .ret (s.get_block x blockY z)

/-- Mirrors `Chunk::get_section`: `sections.get((y - y_pos) as usize)`. -/
def Chunk.get_section (c : Chunk) (y : Int) : Option Section :=
  c.sections[usizeOfI32 (i32wrap (y - c.y_pos))]?

/-- Mirrors `ChunkParseError` in `src/chunks/chunk.rs` (the payload carried
by `DecompressionFailed` and `ParseFailed` is opaque to this crate and is
dropped in the model). -/
inductive ChunkParseError where
  | inputTooShort (expected actual : Nat)
  | unsupportedCompression
  | decompressionFailed
  | parseFailed
  | invalidField (name : String)
  | invalidPalette
  | invalidSectionData
deriving DecidableEq

/-- Mirrors `RegionParseError` in `src/region.rs`. -/
inductive RegionParseError where
  | inputTooShort (actual : Nat)
  | inputInvalidSize (actual : Nat)
deriving DecidableEq

/-- Fueled bit-length helper (64 steps of halving suffice on a `u64`). -/
def bitLenAux : Nat → Nat → Nat
  | 0, _ => 0
  | fuel + 1, n => if n = 0 then 0 else bitLenAux fuel (n / 2) + 1

/-- Rust `usize::BITS - n.leading_zeros()` for a 64-bit `n`: the bit length
of `n % 2^64`. -/
def u64BitLen (n : Nat) : Nat := bitLenAux 64 (n % 18446744073709551616)

/-- Rust `palette_len - 1` on `usize` with overflow checks disabled: wraps to
`2^64 - 1` when `palette_len = 0`. -/
def usizePred (n : Nat) : Nat := (n + 18446744073709551615) % 18446744073709551616

/-- Mirrors the `bits_per_index` computation in `parse_chunk`:
`max(4, usize::BITS - (palette_len - 1).leading_zeros())`. -/
def bitsPerIndex (paletteLen : Nat) : Nat := max 4 (u64BitLen (usizePred paletteLen))

/-- Mirrors `let mask: u64 = (1u64 << bits_per_index) - 1` (the shift amount
is reduced mod 64, the release-profile behaviour of an overflowing shift). -/
def maskOf (bpi : Nat) : Nat := 2 ^ (bpi % 64) - 1

/-- Reinterpretation of an `i64` as `u64` (`data[long_idx] as u64`). -/
def i64toU64 (v : Int) : Nat := (v % (18446744073709551616 : Int)).toNat

/-- Outcome of the 4096-iteration index-unpacking loop: the extracted
indices, an `index >= palette_len` rejection, or an out-of-bounds
`data[long_idx]` access (a Rust panic). -/
inductive UnpackRes where
  | ok (idxs : List Nat)
  | oor
  | panic
deriving DecidableEq

/-- Prepends one extracted index to the outcome of the remaining loop. -/
def UnpackRes.cons (i : Nat) : UnpackRes → UnpackRes
  | .ok l => .ok (i :: l)
  | r => r

/-- Mirrors the unpacking loop of `parse_chunk` (`for _ in 0..4096`) with its
running `long_idx` and `bit_offset` state: when the next `bits_per_index`
bits would cross the 64-bit boundary the loop advances to the next word and
reads at bit 0; otherwise it reads at `bit_offset` and advances, resetting
to the next word when the offset reaches exactly 64. -/
def unpackAux (data : List Nat) (bpi paletteLen : Nat) :
    Nat → Nat → Nat → UnpackRes
  | 0, _, _ => .ok []
  | n + 1, longIdx, bitOff =>
    if 64 < bitOff + bpi then
      match data[longIdx + 1]? with
      | none => .panic
      | some w =>
        let index := w &&& maskOf bpi
        if paletteLen ≤ index then .oor
        else .cons index (unpackAux data bpi paletteLen n (longIdx + 1) bpi)
    else
      match data[longIdx]? with
      | none => .panic
      | some w =>
        let index := (w >>> bitOff) &&& maskOf bpi
        if paletteLen ≤ index then .oor
        else if bitOff + bpi = 64 then
          .cons index (unpackAux data bpi paletteLen n (longIdx + 1) 0)
        else
          .cons index (unpackAux data bpi paletteLen n longIdx (bitOff + bpi))

/-- Mirrors the palette-construction loop: each entry must have a string
`Name`; `Properties` is optional. -/
def buildPalette : List (List (String × Nbt)) → Except ChunkParseError (List Block)
  | [] => .ok []
  | entry :: rest =>
    match getField entry "Name" asString with
    | none => .error (.invalidField "Name")
    | some n =>
      match buildPalette rest with
      | .error e => .error e
      | .ok bs => .ok (⟨n, getField entry "Properties" asCompound⟩ :: bs)

/-- Default block used to express the always-in-bounds `palette[index]`
lookups of the source as total functions. -/
def defBlock : Block := ⟨"", none⟩

/-- Mirrors the per-section body of the `for section in original_sections`
loop of `parse_chunk` (lines 117-183 of `src/chunks/chunk.rs`), including
the inoperative `palette_len == 0 && palette_len > 4096` guard exactly as
written in the source. -/
def parseSection (sec : List (String × Nbt)) : PRes ChunkParseError Section :=
  match getField sec "block_states" asCompound with
  | none => .err (.invalidField "block_states")
  | some bs =>
  match getField bs "palette" asListCompound with
  | none => .err (.invalidField "palette")
  | some origPalette =>
  let paletteLen := origPalette.length
  if paletteLen = 0 ∧ 4096 < paletteLen then .err .invalidPalette
  else
  match buildPalette origPalette with
  | .error e => .err e
  | .ok palette =>
  let bpi := bitsPerIndex paletteLen
  if paletteLen = 1 then .ok ⟨List.replicate 4096 (palette.getD 0 defBlock)⟩
  else
  match getField bs "data" asLongArray with
  | none => .err (.invalidField "data")
  | some dataI =>
  if dataI.length < bpi * 64 then .err .invalidSectionData
  else
  match unpackAux (dataI.map i64toU64) bpi paletteLen 4096 0 0 with
  | .panic => .panic
  | .oor => .err .invalidSectionData
  | .ok idxs => .ok ⟨idxs.map (fun i => palette.getD i defBlock)⟩

/-- Sequencing of `parseSection` over the section list, propagating the
first error (the `?`-style early return of the source loop). -/
def parseSections : List (List (String × Nbt)) → PRes ChunkParseError (List Section)
  | [] => .ok []
  | sec :: rest =>
    match parseSection sec with
    | .panic => .panic
    | .err e => .err e
    | .ok s =>
      match parseSections rest with
      | .panic => .panic
      | .err e => .err e
      | .ok ss => .ok (s :: ss)

/-- Mirrors the post-NBT part of `parse_chunk`: required top-level fields
`yPos` (int) and `sections` (list of compounds), then the section loop. -/
def parseChunkNbt (decoded : List (String × Nbt)) : PRes ChunkParseError Chunk :=
  match getField decoded "yPos" asInt with
  | none => .err (.invalidField "yPos")
  | some y =>
  match getField decoded "sections" asListCompound with
  | none => .err (.invalidField "sections")
  | some origSections =>
  match parseSections origSections with
  | .panic => .panic
  | .err e => .err e
  | .ok secs => .ok ⟨y, secs⟩

/-- External collaborators of the decoder: the gzip and zlib stream codecs
and the `nbt_rs` parser (which per the interface contract yields the root
compound of the document).  Error payloads are opaque. -/
structure Externals where
  gzip : List Nat → Except Unit (List Nat)
  zlib : List Nat → Except Unit (List Nat)
  parseNbt : List Nat → Except Unit (List (String × Nbt))

/-- Big-endian 32-bit read (`u32::from_be_bytes`). -/
def be32 (b0 b1 b2 b3 : Nat) : Nat := ((b0 * 256 + b1) * 256 + b2) * 256 + b3

/-- Mirrors `parse_chunk` in `src/chunks/chunk.rs` over a raw byte slice:
5-byte inner header (big-endian length plus compression tag), the
`bytes.len() < len + 4` shortness check as written in the source, the
compressed-body slice `&body[..len]` (which panics when `len` exceeds the
remaining `bytes.len() - 5` bytes), codec dispatch on the tag, NBT parsing,
and the field/section decoding. -/
def parse_chunk (ext : Externals) (bytes : List Nat) : PRes ChunkParseError Chunk :=
  if bytes.length < 5 then .err (.inputTooShort 5 bytes.length)
  else
  let len := be32 (bytes.getD 0 0) (bytes.getD 1 0) (bytes.getD 2 0) (bytes.getD 3 0)
  if bytes.length < len + 4 then .err (.inputTooShort (len + 4) bytes.length)
  else
  if bytes.length - 5 < len then .panic
  else
  let raw := (bytes.drop 5).take len
  let dataE : Except ChunkParseError (List Nat) :=
    if bytes.getD 4 0 = 1 then
      match ext.gzip raw with
      | .error _ => .error .decompressionFailed
      | .ok d => .ok d
    else if bytes.getD 4 0 = 2 then
      match ext.zlib raw with
      | .error _ => .error .decompressionFailed
      | .ok d => .ok d
    else if bytes.getD 4 0 = 3 then .ok raw
    else .error .unsupportedCompression
  match dataE with
  | .error e => .err e
  | .ok data =>
  match ext.parseNbt data with
  | .error _ => .err .parseFailed
  | .ok decoded => parseChunkNbt decoded

/-- Read-only byte buffer: a length plus an indexed read, the model of the
`&[u8]` the region parser receives. -/
structure Buf where
  len : Nat
  byteAt : Nat → Nat

/-- Mirrors `Region` in `src/region.rs`: by construction the list always has
exactly 1024 entries. -/
structure Region where
  chunks : List (Option Chunk)

/-- The 24-bit big-endian sector offset of location entry `i` (bytes
`[4i, 4i+3)` of the header). -/
def locOffset (b : Buf) (i : Nat) : Nat :=
  b.byteAt (4 * i) * 65536 + b.byteAt (4 * i + 1) * 256 + b.byteAt (4 * i + 2)

/-- The sector count of location entry `i` (byte `4i+3`). -/
def locCount (b : Buf) (i : Nat) : Nat := b.byteAt (4 * i + 3)

/-- The big-endian timestamp of entry `i` (bytes `[4096+4i, 4096+4i+4)`). -/
def timestampAt (b : Buf) (i : Nat) : Nat :=
  be32 (b.byteAt (4096 + 4 * i)) (b.byteAt (4096 + 4 * i + 1))
    (b.byteAt (4096 + 4 * i + 2)) (b.byteAt (4096 + 4 * i + 3))

/-- Materialisation of the payload slice `&bytes[start..start+len]`. -/
def sliceList (b : Buf) (start len : Nat) : List Nat :=
  (List.range len).map (fun j => b.byteAt (start + j))

/-- Mirrors the per-cell closure of `Region::parse_bytes`: the absence test
`offset == 0 && sector_count == 0 && timestamp == 0`, the unchecked payload
slice `&bytes[offset*4096 .. offset*4096 + sector_count*4096]` (a panic
when it overruns the buffer), and the `.ok()` downgrade of any chunk parse
error to an absent cell. -/
def parseCell (ext : Externals) (b : Buf) (i : Nat) : PanicOr (Option Chunk) :=
  let off := locOffset b i
  let cnt := locCount b i
  if off = 0 ∧ cnt = 0 ∧ timestampAt b i = 0 then .ret none
  else
    let start := off * 4096
    if b.len < start + cnt * 4096 then .panic
    else
      match parse_chunk ext (sliceList b start (cnt * 4096)) with
      | .panic => .panic
      | .err _ => .ret none
      | .ok c => .ret (some c)

/-- Folds `parseCell` over the given cell indices, propagating a panic. -/
def collectCells (ext : Externals) (b : Buf) : List Nat → PanicOr (List (Option Chunk))
  | [] => .ret []
  | i :: rest =>
    match parseCell ext b i with
    | .panic => .panic
    | .ret c =>
      match collectCells ext b rest with
      | .panic => .panic
      | .ret cs => .ret (c :: cs)

/-- Mirrors `Region::parse_bytes`: the 8192-byte minimum and 4096-multiple
size checks (in that order), then the 1024 per-cell decodes. -/
def Region.parse_bytes (ext : Externals) (b : Buf) : PRes RegionParseError Region :=
  if b.len < 8192 then .err (.inputTooShort b.len)
  else if b.len % 4096 = 0 then
    match collectCells ext b (List.range 1024) with
    | .panic => .panic
    | .ret cs => .ok ⟨cs⟩
  else .err (.inputInvalidSize b.len)

/-- Mirrors `Region::count_chunks`: `1024 -` the number of absent cells. -/
def Region.count_chunks (r : Region) : Nat :=
  1024 - (r.chunks.filter (fun c => c.isNone)).length

/-- Mirrors `Region::get_chunk`: bounds-checked lookup at `x + z * 32`. -/
def Region.get_chunk (r : Region) (x z : Nat) : Option Chunk :=
  if 32 ≤ x ∨ 32 ≤ z then none
  else r.chunks.getD (x + z * 32) none

/-!
Packing model (taken from the textual description in the spec rather than
from the source, which only decodes) and concrete fixtures used by the
theorems below.
-/

/-- Modelled from the spec: one 64-bit word of the section 4.4 bitstream,
little-endian within the word, entry `j` of the group sitting at bit
`j * bpi`. -/
def packWord (bpi : Nat) : List Nat → Nat
  | [] => 0
  | v :: rest => v + 2 ^ bpi * packWord bpi rest

/-- Modelled from the spec: split the index list into the groups of `k`
consecutive indices that share one 64-bit word (fueled recursion,
`fuel ≥ length` suffices). -/
def packGroups (k : Nat) : Nat → List Nat → List (List Nat)
  | 0, _ => []
  | _, [] => []
  | fuel + 1, x :: xs => (x :: xs).take k :: packGroups k fuel ((x :: xs).drop k)

/-- Modelled from the spec: the word-boundary-respecting bitstream of
section 4.4 holding the given indices at width `bpi`: `64 / bpi` indices per
64-bit word, indices never spanning two words, the remaining high bits of a
word left unused. -/
def packIndices (bpi : Nat) (idxs : List Nat) : List Nat :=
  (packGroups (64 / bpi) idxs.length idxs).map (packWord bpi)

/-- Well-formedness of a group list of word capacity `k`: every group is
nonempty, holds at most `k` indices, and only the last group may be
partial. -/
def groupsWF (k : Nat) : List (List Nat) → Prop
  | [] => True
  | g :: gs => 1 ≤ g.length ∧ g.length ≤ k ∧ (gs = [] ∨ g.length = k) ∧ groupsWF k gs

/-- The chunk stored by a non-panicking cell decode. -/
def cellVal : PanicOr (Option Chunk) → Option Chunk
  | .ret c => c
  | .panic => none

/-- Externals whose codecs and tree parser reject every input (no concrete
fixture below ever reaches them on a gzip or zlib path). -/
def extNone : Externals := ⟨fun _ => .error (), fun _ => .error (), fun _ => .error ()⟩

/-- Fixture blocks. -/
def bA : Block := ⟨"a", none⟩

/-- Fixture block with a second name. -/
def bB : Block := ⟨"b", none⟩

/-- Fixture block with a third name. -/
def bC : Block := ⟨"c", none⟩

/-- Fixture palette entry named "a". -/
def pA : Nbt := .compound [("Name", .str "a")]

/-- Fixture palette entry named "b". -/
def pB : Nbt := .compound [("Name", .str "b")]

/-- Section fields with an empty palette list and an empty long array. -/
def sEmptyPalette : List (String × Nbt) :=
  [("block_states", .compound [("palette", .listTag []), ("data", .longArray [])])]

/-- Section fields with a two-entry palette and a 4-long data array (4 64-bit
words, the minimum required by the spec sentence of C4). -/
def s4 : List (String × Nbt) :=
  [("block_states", .compound [("palette", .listTag [pA, pB]),
    ("data", .longArray [0, 0, 0, 0])])]

/-- Section fields with a two-entry palette and a 3-long data array. -/
def s3 : List (String × Nbt) :=
  [("block_states", .compound [("palette", .listTag [pA, pB]),
    ("data", .longArray [0, 0, 0])])]

/-- Section fields with a two-entry palette and 256 zero words (the length
the code accepts for 4-bit indices). -/
def sOk256 : List (String × Nbt) :=
  [("block_states", .compound [("palette", .listTag [pA, pB]),
    ("data", .longArray (List.replicate 256 0))])]

/-- Section fields with a 17-entry palette (5-bit indices) and 320 zero
words: `320 ≥ bits_per_index * 64 = 320` passes the length check, yet the
loop needs 342 words. -/
def s17 : List (String × Nbt) :=
  [("block_states", .compound [("palette", .listTag (List.replicate 17 pA)),
    ("data", .longArray (List.replicate 320 0))])]

/-- Fixture section whose 4096 cells are all the block "a". -/
def secA : Section := ⟨List.replicate 4096 bA⟩

/-- Fixture section holding "c" at linear position 3840 (local y = 15,
z = 0, x = 0) and "b" everywhere else. -/
def secB : Section := ⟨(List.replicate 4096 bB).set 3840 bC⟩

/-- Chunk whose `y_pos * 16` (32768) overflows `i16`. -/
def cBad : Chunk := ⟨2048, [secA]⟩

/-- Chunk with `y_pos = -4` and 24 sections, the last one `secB`. -/
def c24 : Chunk := ⟨-4, List.replicate 23 secA ++ [secB]⟩

/-- All-zero buffer of exactly 8192 bytes. -/
def zeros8192 : Buf := ⟨8192, fun _ => 0⟩

/-- Region with 1024 absent cells. -/
def emptyRegion : Region := ⟨List.replicate 1024 none⟩

/-- All-zero buffer of 5 bytes. -/
def b5 : Buf := ⟨5, fun _ => 0⟩

/-- All-zero buffer of 8193 bytes. -/
def b8193 : Buf := ⟨8193, fun _ => 0⟩

/-- Header-only buffer whose cell 0 location entry is offset 2, sector
count 1: payload range [8192, 12288) overruns the 8192-byte buffer. -/
def bufC1 : Buf := ⟨8192, fun i => if i = 2 then 2 else if i = 3 then 1 else 0⟩

/-- Root compound of a chunk with no sections. -/
def nbtGood : List (String × Nbt) := [("yPos", .int 0), ("sections", .listTag [])]

/-- Section fields whose first packed index is 15 with a palette of
length 2 (an out-of-range index). -/
def secBadFields : List (String × Nbt) :=
  [("block_states", .compound [("palette", .listTag [pA, pB]),
    ("data", .longArray (15 :: List.replicate 255 0))])]

/-- Root compound of a chunk with one section whose first packed index is 15
with a palette of length 2. -/
def nbtBad : List (String × Nbt) :=
  [("yPos", .int 0), ("sections", .listTag [.compound secBadFields])]

/-- Externals whose tree parser yields `nbtGood` for the byte list `[7]` and
`nbtBad` for `[8]`. -/
def extC5 : Externals :=
  ⟨fun _ => .error (), fun _ => .error (),
    fun l => if l = [7] then .ok nbtGood else if l = [8] then .ok nbtBad else .error ()⟩

/-- Region buffer of 16384 bytes: cell 0 points at sector 2 (payload `[7]`
in raw compression), cell 1 at sector 3 (payload `[8]`), all other cells
absent. -/
def bufC5 : Buf :=
  ⟨16384, fun i =>
    if i = 2 then 2 else if i = 3 then 1 else
    if i = 6 then 3 else if i = 7 then 1 else
    if i = 8195 then 1 else if i = 8196 then 3 else if i = 8197 then 7 else
    if i = 12291 then 1 else if i = 12292 then 3 else if i = 12293 then 8 else 0⟩

/-!
Helper lemmas shared by the claim theorems.
-/

/-- Any cell whose location offset, sector count and timestamp are all zero
is decoded as absent. -/
theorem parseCell_absent (ext : Externals) (b : Buf) (i : Nat)
    (h : locOffset b i = 0 ∧ locCount b i = 0 ∧ timestampAt b i = 0) :
    parseCell ext b i = .ret none := by
  simp only [parseCell]
  rw [if_pos h]

/-- Folding cells that all decode to absent yields the all-absent list. -/
theorem collectCells_all_none (ext : Externals) (b : Buf) (l : List Nat)
    (h : ∀ i ∈ l, parseCell ext b i = .ret none) :
    collectCells ext b l = .ret (List.replicate l.length none) := by
  induction l with
  | nil => rfl
  | cons i rest ih =>
    simp only [collectCells, h i (List.mem_cons_self i rest),
      ih fun j hj => h j (List.mem_cons_of_mem i hj), List.length_cons,
      List.replicate_succ]

/-- Reduction of `parseSection` to its data-length stage: with both
required fields present, a valid palette of length at least 2, the guard
and the one-entry shortcut fall away and the result is decided by the
length check and the unpacking loop. -/
theorem parseSection_data_stage (sec bs : List (String × Nbt))
    (origPalette : List (List (String × Nbt))) (palette : List Block) (dataI : List Int)
    (hbs : getField sec "block_states" asCompound = some bs)
    (hpal : getField bs "palette" asListCompound = some origPalette)
    (hbuild : buildPalette origPalette = .ok palette)
    (h2 : 2 ≤ origPalette.length)
    (hdata : getField bs "data" asLongArray = some dataI)
    (hlen : bitsPerIndex origPalette.length * 64 ≤ dataI.length) :
    parseSection sec =
      match unpackAux (dataI.map i64toU64) (bitsPerIndex origPalette.length)
          origPalette.length 4096 0 0 with
      | .panic => .panic
      | .oor => .err .invalidSectionData
      | .ok idxs => .ok ⟨idxs.map fun i => palette.getD i defBlock⟩ := by
  simp only [parseSection, hbs, hpal, hbuild, hdata]
  rw [if_neg (by omega), if_neg (by omega), if_neg (by omega)]

/-- Companion of `parseSection_data_stage`: with the same shape hypotheses,
a `data` array shorter than `bits_per_index * 64` words fails with
`InvalidSectionData` at the length check. -/
theorem parseSection_data_short (sec bs : List (String × Nbt))
    (origPalette : List (List (String × Nbt))) (palette : List Block) (dataI : List Int)
    (hbs : getField sec "block_states" asCompound = some bs)
    (hpal : getField bs "palette" asListCompound = some origPalette)
    (hbuild : buildPalette origPalette = .ok palette)
    (h2 : 2 ≤ origPalette.length)
    (hdata : getField bs "data" asLongArray = some dataI)
    (hlen : dataI.length < bitsPerIndex origPalette.length * 64) :
    parseSection sec = .err .invalidSectionData := by
  simp only [parseSection, hbs, hpal, hbuild, hdata]
  rw [if_neg (by omega), if_neg (by omega), if_pos (by omega)]

/-- Step equation: crossing read that runs off the end of `data`. -/
theorem unpackAux_cross_none (data : List Nat) (bpi p n li bo : Nat)
    (h : 64 < bo + bpi) (hw : data[li + 1]? = none) :
    unpackAux data bpi p (n + 1) li bo = .panic := by
  rw [unpackAux, if_pos h, hw]

/-- Step equation: crossing read of a word whose low bits are a valid
index. -/
theorem unpackAux_cross_some (data : List Nat) (bpi p n li bo w : Nat)
    (h : 64 < bo + bpi) (hw : data[li + 1]? = some w)
    (hp : ¬ p ≤ w &&& maskOf bpi) :
    unpackAux data bpi p (n + 1) li bo =
      .cons (w &&& maskOf bpi) (unpackAux data bpi p n (li + 1) bpi) := by
  rw [unpackAux, if_pos h, hw]
  exact if_neg hp

/-- Step equation: crossing read that extracts an out-of-range index. -/
theorem unpackAux_cross_oor (data : List Nat) (bpi p n li bo w : Nat)
    (h : 64 < bo + bpi) (hw : data[li + 1]? = some w)
    (hp : p ≤ w &&& maskOf bpi) :
    unpackAux data bpi p (n + 1) li bo = .oor := by
  rw [unpackAux, if_pos h, hw]
  exact if_pos hp

/-- Step equation: in-word read that runs off the end of `data`. -/
theorem unpackAux_norm_none (data : List Nat) (bpi p n li bo : Nat)
    (h : ¬ 64 < bo + bpi) (hw : data[li]? = none) :
    unpackAux data bpi p (n + 1) li bo = .panic := by
  rw [unpackAux, if_neg h, hw]

/-- Step equation: in-word read of a valid index that leaves the offset
strictly below 64. -/
theorem unpackAux_norm_some (data : List Nat) (bpi p n li bo w : Nat)
    (h : ¬ 64 < bo + bpi) (hw : data[li]? = some w)
    (hp : ¬ p ≤ (w >>> bo) &&& maskOf bpi) (h64 : ¬ bo + bpi = 64) :
    unpackAux data bpi p (n + 1) li bo =
      .cons ((w >>> bo) &&& maskOf bpi) (unpackAux data bpi p n li (bo + bpi)) := by
  rw [unpackAux, if_neg h, hw]
  show (if p ≤ (w >>> bo) &&& maskOf bpi then UnpackRes.oor
    else if bo + bpi = 64 then
      UnpackRes.cons ((w >>> bo) &&& maskOf bpi) (unpackAux data bpi p n (li + 1) 0)
    else UnpackRes.cons ((w >>> bo) &&& maskOf bpi)
      (unpackAux data bpi p n li (bo + bpi))) = _
  rw [if_neg hp, if_neg h64]

/-- Step equation: in-word read of a valid index that fills the word
exactly, resetting to the next word. -/
theorem unpackAux_norm_some64 (data : List Nat) (bpi p n li bo w : Nat)
    (h : ¬ 64 < bo + bpi) (hw : data[li]? = some w)
    (hp : ¬ p ≤ (w >>> bo) &&& maskOf bpi) (h64 : bo + bpi = 64) :
    unpackAux data bpi p (n + 1) li bo =
      .cons ((w >>> bo) &&& maskOf bpi) (unpackAux data bpi p n (li + 1) 0) := by
  rw [unpackAux, if_neg h, hw]
  show (if p ≤ (w >>> bo) &&& maskOf bpi then UnpackRes.oor
    else if bo + bpi = 64 then
      UnpackRes.cons ((w >>> bo) &&& maskOf bpi) (unpackAux data bpi p n (li + 1) 0)
    else UnpackRes.cons ((w >>> bo) &&& maskOf bpi)
      (unpackAux data bpi p n li (bo + bpi))) = _
  rw [if_neg hp, if_pos h64]

/-- Step equation: in-word read that extracts an out-of-range index. -/
theorem unpackAux_norm_oor (data : List Nat) (bpi p n li bo w : Nat)
    (h : ¬ 64 < bo + bpi) (hw : data[li]? = some w)
    (hp : p ≤ (w >>> bo) &&& maskOf bpi) :
    unpackAux data bpi p (n + 1) li bo = .oor := by
  rw [unpackAux, if_neg h, hw]
  exact if_pos hp

/-- On 320 all-zero 5-bit-packed words the unpacking loop keeps extracting
the valid index 0 (palette length 17) at 12 indices per word, so after
`12 - j + 12 * (319 - w) + 1` further iterations it crosses into word 320
and panics. -/
theorem unpackAux_zero320_panics :
    ∀ (n w bo j : Nat), bo = j * 5 → j ≤ 12 → w ≤ 319 →
      12 - j + 12 * (319 - w) + 1 ≤ n →
      unpackAux (List.replicate 320 0) 5 17 n w bo = .panic := by
  intro n
  induction n using Nat.strong_induction_on with
  | _ n ih =>
    intro w bo j hbo hj hw hn
    obtain ⟨m, rfl⟩ : ∃ m, n = m + 1 := ⟨n - 1, by omega⟩
    subst hbo
    by_cases hj12 : j = 12
    · subst hj12
      by_cases hw319 : w = 319
      · subst hw319
        exact unpackAux_cross_none _ _ _ _ _ _ (by omega)
          (by rw [List.getElem?_replicate, if_neg (by omega)])
      · rw [unpackAux_cross_some _ _ _ _ _ _ 0 (by omega)
          (by rw [List.getElem?_replicate, if_pos (by omega)]) (by decide)]
        rw [ih m (by omega) (w + 1) 5 1 (by omega) (by omega) (by omega) (by omega)]
        rfl
    · rw [unpackAux_norm_some _ _ _ _ _ _ 0 (by omega)
          (by rw [List.getElem?_replicate, if_pos (by omega)])
          (by simp) (by omega)]
      rw [show (j * 5 + 5 : Nat) = (j + 1) * 5 from by ring]
      rw [ih m (by omega) w ((j + 1) * 5) (j + 1) rfl (by omega) (by omega) (by omega)]
      rfl

/-- The 17-entry-palette section with 320 zero data words passes the length
check yet panics inside the unpacking loop. -/
theorem parseSection_s17_panics : parseSection s17 = .panic := by
  rw [parseSection_data_stage s17 _ (List.replicate 17 [("Name", Nbt.str "a")])
    (List.replicate 17 bA) (List.replicate 320 0) rfl rfl rfl (by decide) rfl (by decide)]
  rw [show (List.replicate 320 (0 : Int)).map i64toU64 = List.replicate 320 0 from by
    rw [List.map_replicate]; rfl]
  rw [show List.length (List.replicate 17 [("Name", Nbt.str "a")]) = 17 from by
    rw [List.length_replicate]]
  rw [show bitsPerIndex 17 = 5 from by decide]
  rw [unpackAux_zero320_panics 4096 0 0 0 (by omega) (by omega) (by omega) (by omega)]

/-!
Claim theorems.
-/

/-- C1: the spec requires an out-of-range location entry (payload range
beyond the buffer end) to degrade to an absent cell, never to abort the
whole region parse; the code instead takes the unchecked slice
`&bytes[offset*4096 .. offset*4096 + sector_count*4096]` and panics.  On
`bufC1` (valid 8192-byte header, cell 0 pointing at sectors [8192, 12288))
the parse panics for every choice of externals. -/
theorem c1_out_of_range_location_panics (ext : Externals) :
    Region.parse_bytes ext bufC1 = .panic := by
  rw [Region.parse_bytes, if_neg (by decide), if_pos (by decide),
    show (1024 : Nat) = 1023 + 1 from rfl, List.range_succ_eq_map]
  rw [collectCells, show parseCell ext bufC1 0 = .panic from rfl]

/-- C3: the claim says a section with an empty palette list fails with
`InvalidPalette`; the guard in the source is `palette_len == 0 &&
palette_len > 4096`, which is never true, so the empty-palette section
`sEmptyPalette` instead falls through and fails with `InvalidSectionData`
(with debug overflow checks it would panic on `palette_len - 1`). -/
theorem c3_empty_palette_slips_guard :
    parseSection sEmptyPalette = .err .invalidSectionData ∧
    parseSection sEmptyPalette ≠ .err .invalidPalette := by
  refine ⟨rfl, fun h => ?_⟩
  rw [show parseSection sEmptyPalette = .err .invalidSectionData from rfl] at h
  injection h with h2
  cases h2

/-- C6: buffers shorter than 8192 bytes fail with `InputTooShort`; once the
minimum is met, a length that is not a multiple of 4096 fails with
`InputInvalidSize`; in particular a buffer of length 8193 fails with
`InputInvalidSize`. -/
theorem c6_size_checks (ext : Externals) (b : Buf) :
    (b.len < 8192 → Region.parse_bytes ext b = .err (.inputTooShort b.len)) ∧
    (8192 ≤ b.len → b.len % 4096 ≠ 0 →
      Region.parse_bytes ext b = .err (.inputInvalidSize b.len)) ∧
    (b.len = 8193 → Region.parse_bytes ext b = .err (.inputInvalidSize 8193)) := by
  refine ⟨fun h => ?_, fun h1 h2 => ?_, fun h => ?_⟩
  · rw [Region.parse_bytes, if_pos h]
  · rw [Region.parse_bytes, if_neg (by omega), if_neg h2]
  · rw [Region.parse_bytes, if_neg (by omega), if_neg (by omega), h]

/-- Witness for C6 at concrete buffers of length 5 and 8193. -/
theorem c6_size_checks_witness :
    ((5 : Nat) < 8192 ∧ Region.parse_bytes extNone b5 = .err (.inputTooShort 5)) ∧
    (b8193.len = 8193 ∧ Region.parse_bytes extNone b8193 = .err (.inputInvalidSize 8193)) :=
  ⟨⟨by omega, (c6_size_checks extNone b5).1 (by decide)⟩,
   ⟨rfl, (c6_size_checks extNone b8193).2.2 rfl⟩⟩

/-- C7: an all-zero 8192-byte buffer parses successfully into the region
with 1024 absent cells, whose chunk count is 0 and whose coordinate lookup
yields `none` for every in-range cell. -/
theorem c7_empty_region (ext : Externals) :
    Region.parse_bytes ext zeros8192 = .ok emptyRegion ∧
    emptyRegion.count_chunks = 0 ∧
    ∀ x z : Nat, x < 32 → z < 32 → emptyRegion.get_chunk x z = none := by
  refine ⟨?_, ?_, fun x z hx hz => ?_⟩
  · rw [Region.parse_bytes, if_neg (by decide), if_pos (by decide),
      collectCells_all_none ext zeros8192 _
        (fun i _ => parseCell_absent ext zeros8192 i
          (by simp [locOffset, locCount, timestampAt, be32, zeros8192])),
      List.length_range]
    rfl
  · show 1024 - (List.filter _ (List.replicate 1024 (none : Option Chunk))).length = 0
    rw [List.filter_replicate]
    simp
  · rw [Region.get_chunk, if_neg (by omega)]
    show (List.replicate 1024 (none : Option Chunk)).getD (x + z * 32) none = none
    rw [List.getD_eq_getElem?_getD, List.getElem?_replicate]
    split <;> rfl

/-- C9: the code can panic instead of returning a `Result`: a 5-byte input
declaring body length 1 (total length exactly `L + 4`) passes the shortness
checks and panics taking `&body[..len]`, and the 17-entry-palette section
`s17` passes the `data` length check with 320 words yet the unpacking loop
reads `data[320]` and panics. -/
theorem c7_empty_region_witness :
    Region.parse_bytes extNone zeros8192 = .ok emptyRegion ∧
    emptyRegion.count_chunks = 0 ∧
    emptyRegion.get_chunk 0 0 = none ∧ emptyRegion.get_chunk 31 31 = none :=
  ⟨(c7_empty_region extNone).1, (c7_empty_region extNone).2.1,
   (c7_empty_region extNone).2.2 0 0 (by omega) (by omega),
   (c7_empty_region extNone).2.2 31 31 (by omega) (by omega)⟩

/-- C10: an in-bounds `set_block` stores the block at the claimed linear
index `(y<<8)|(z<<4)|x` (which is what `get_block_pos` computes), a
subsequent `get_block` at the same coordinates returns it, every other cell
is untouched, and an out-of-bounds `set_block` leaves the section
unchanged. -/
theorem c10_set_block_frame (s : Section) (x y z : Nat) (b : Block)
    (hlen : s.blocks.length = 4096) :
    (x < 16 → y < 16 → z < 16 →
      Section.get_block_pos x y z = (y <<< 8) ||| (z <<< 4) ||| x ∧
      (s.set_block x y z b).blocks[Section.get_block_pos x y z]? = some b ∧
      (s.set_block x y z b).get_block x y z = some b ∧
      ∀ i : Nat, i ≠ Section.get_block_pos x y z →
        (s.set_block x y z b).blocks[i]? = s.blocks[i]?) ∧
    (16 ≤ x ∨ 16 ≤ y ∨ 16 ≤ z → s.set_block x y z b = s) := by
  constructor
  · intro hx hy hz
    have hposBall : ∀ x < 16, ∀ y < 16, ∀ z < 16,
        Section.get_block_pos x y z = 256 * y + 16 * z + x ∧
        (y <<< 8) ||| (z <<< 4) ||| x = 256 * y + 16 * z + x := by decide
    obtain ⟨hpos, hpos2⟩ := hposBall x hx y hy z hz
    have hb : Section.get_block_pos x y z < s.blocks.length := by
      rw [hlen, hpos]; omega
    have hset : s.set_block x y z b = ⟨s.blocks.set (Section.get_block_pos x y z) b⟩ := by
      rw [Section.set_block, if_neg (by omega)]
    refine ⟨by rw [hpos, hpos2], ?_, ?_, fun i hi => ?_⟩
    · rw [hset]
      exact List.getElem?_set_self hb
    · rw [Section.get_block, if_neg (by omega), hset]
      exact List.getElem?_set_self hb
    · rw [hset]
      exact List.getElem?_set_ne fun h => hi h.symm
  · intro h
    rw [Section.set_block, if_pos (by omega)]

/-- Witness for C10 at a concrete section, coordinates and block. -/
theorem c10_set_block_frame_witness :
    secA.blocks.length = 4096 ∧ (1 : Nat) < 16 ∧
    (secA.set_block 1 2 3 bB).get_block 1 2 3 = some bB ∧
    (secA.set_block 1 2 3 bB).blocks[0]? = secA.blocks[0]? ∧
    secA.set_block 16 2 3 bB = secA := by
  have hlen : secA.blocks.length = 4096 := by
    show (List.replicate 4096 bA).length = 4096
    rw [List.length_replicate]
  have h := c10_set_block_frame secA 1 2 3 bB hlen
  have h16 := c10_set_block_frame secA 16 2 3 bB hlen
  obtain ⟨-, -, hget, hframe⟩ := h.1 (by omega) (by omega) (by omega)
  exact ⟨hlen, by omega, hget, hframe 0 (by decide), h16.2 (by omega)⟩

/-- Wrapping into the i16 range is the identity on values already in
range. -/
theorem i16wrap_eq_self (v : Int) (h1 : -32768 ≤ v) (h2 : v ≤ 32767) :
    i16wrap v = v := by
  unfold i16wrap
  omega

/-- An i16 wrap absorbs an inner wrap of a summand. -/
theorem i16wrap_add_wrap (a b : Int) : i16wrap (a + i16wrap b) = i16wrap (a + b) := by
  unfold i16wrap
  omega

/-- Wrapping into the i32 range is the identity on values already in
range. -/
theorem i32wrap_eq_self (v : Int) (h1 : -2147483648 ≤ v) (h2 : v ≤ 2147483647) :
    i32wrap v = v := by
  unfold i32wrap
  omega

/-- Reinterpreting a small nonnegative i32 value as usize is `toNat`. -/
theorem usizeOfI32_eq_toNat (v : Int) (h1 : 0 ≤ v) (h2 : v < 18446744073709551616) :
    usizeOfI32 v = v.toNat := by
  unfold usizeOfI32
  omega

/-- When `y_pos * 16` and the section stack height stay inside the i16
range, `get_y_range` computes the exact mathematical bounds. -/
theorem get_y_range_exact (c : Chunk)
    (h1 : -32768 ≤ 16 * c.y_pos)
    (h2 : 16 * c.y_pos + 16 * (c.sections.length : Int) ≤ 32767) :
    c.get_y_range = (c.y_pos * 16, c.y_pos * 16 + (c.sections.length : Int) * 16) := by
  show (i16wrap (i16wrap c.y_pos * 16),
    i16wrap (i16wrap (i16wrap c.y_pos * 16) +
      i16wrap (i16wrap (c.sections.length : Int) * 16))) = _
  have hl : (0 : Int) ≤ (c.sections.length : Int) := Int.natCast_nonneg _
  rw [i16wrap_eq_self c.y_pos (by omega) (by omega),
    i16wrap_eq_self (c.y_pos * 16) (by omega) (by omega),
    i16wrap_eq_self (c.sections.length : Int) (by omega) (by omega),
    i16wrap_add_wrap,
    i16wrap_eq_self (c.y_pos * 16 + (c.sections.length : Int) * 16) (by omega) (by omega)]

theorem c9_parse_chunk_panics (ext : Externals) :
    parse_chunk ext [0, 0, 0, 1, 3] = .panic ∧ parseSection s17 = .panic :=
  ⟨rfl, parseSection_s17_panics⟩

/-- C8 (counterexample): for the chunk with `y_pos = 2048` the claim
predicts `get(0, -32768, 0) = none` (the claimed valid range
`[32768, 32784)` contains no such y), but the wrapped `i16` range check
admits the coordinate and the unchecked `sections[section]` index panics. -/
theorem c8_wrapped_y_pos_panics :
    (¬ ((2048 * 16 : Int) ≤ -32768 ∧ (-32768 : Int) < 2048 * 16 + 1 * 16)) ∧
    cBad.get 0 (-32768) 0 = .panic ∧ cBad.get 0 (-32768) 0 ≠ .ret none := by
  refine ⟨by omega, rfl, ?_⟩
  rw [show cBad.get 0 (-32768) 0 = .panic from rfl]
  intro h
  cases h

/-- C8 (amended): the claimed coordinate mapping holds for every chunk
whose `y_pos * 16` and top of stack stay inside the i16 range (the
counterexample shows the unrestricted claim fails): out-of-range
coordinates give `none`, in-range ones delegate to section
`(y - y_pos*16) >> 4` at local height `(y - y_pos*16) & 0xF`. -/
theorem c8_get_amended (c : Chunk) (x : Nat) (y : Int) (z : Nat)
    (h1 : -32768 ≤ 16 * c.y_pos)
    (h2 : 16 * c.y_pos + 16 * (c.sections.length : Int) ≤ 32767) :
    c.get_y_range = (c.y_pos * 16, c.y_pos * 16 + (c.sections.length : Int) * 16) ∧
    ((16 ≤ x ∨ 16 ≤ z ∨ y < c.y_pos * 16 ∨
        c.y_pos * 16 + (c.sections.length : Int) * 16 ≤ y) →
      c.get x y z = .ret none) ∧
    (x < 16 → z < 16 → c.y_pos * 16 ≤ y →
      y < c.y_pos * 16 + (c.sections.length : Int) * 16 →
      c.get x y z = .ret ((c.sections.getD ((y - c.y_pos * 16).toNat / 16)
        ⟨[]⟩).get_block x ((y - c.y_pos * 16).toNat % 16) z)) := by
  have hr := get_y_range_exact c h1 h2
  have hl : (0 : Int) ≤ (c.sections.length : Int) := Int.natCast_nonneg _
  refine ⟨hr, fun h => ?_, fun hx hz hy1 hy2 => ?_⟩
  · rw [Chunk.get, hr]
    rw [if_pos (by simpa using by omega)]
  · rw [Chunk.get, hr]
    rw [if_neg (by simpa using by omega)]
    rw [i32wrap_eq_self (c.y_pos * 16) (by omega) (by omega)]
    rw [i32wrap_eq_self (y - c.y_pos * 16) (by omega) (by omega)]
    rw [usizeOfI32_eq_toNat (y - c.y_pos * 16) (by omega) (by omega)]
    have hidx : (y - c.y_pos * 16).toNat / 16 < c.sections.length := by omega
    show (match c.sections[(y - c.y_pos * 16).toNat / 16]? with
      | none => PanicOr.panic
      | some s => PanicOr.ret (s.get_block x ((y - c.y_pos * 16).toNat % 256 % 16) z)) = _
    rw [List.getElem?_eq_getElem hidx,
      List.getD_eq_getElem c.sections ⟨[]⟩ hidx,
      show (y - c.y_pos * 16).toNat % 16 = (y - c.y_pos * 16).toNat % 256 % 16 from
        (Nat.mod_mod_of_dvd _ (by norm_num)).symm]

/-- Witness for the amended C8 on the chunk `c24` (`y_pos = -4`, 24
sections): the y range is `[-64, 320)`, `get 0 (-64) 0` reads section 0 at
local height 0, `get 0 319 0` reads section 23 at local height 15 (where
`secB` stores the block "c"), and out-of-range coordinates give `none`. -/
theorem c8_get_amended_witness :
    (-32768 : Int) ≤ 16 * c24.y_pos ∧
    c24.get_y_range = (-64, 320) ∧
    c24.get 0 (-64) 0 = .ret (some bA) ∧
    c24.get 0 319 0 = .ret (some bC) ∧
    c24.get 0 320 0 = .ret none ∧
    c24.get 16 0 0 = .ret none := by
  have hlen : (c24.sections.length : Int) = 24 := by
    show ((List.replicate 23 secA ++ [secB]).length : Int) = 24
    rw [List.length_append, List.length_replicate]
    rfl
  have h0 := c8_get_amended c24 0 (-64) 0 (by rw [show c24.y_pos = -4 from rfl]; omega)
    (by rw [show c24.y_pos = -4 from rfl, hlen]; omega)
  have h319 := c8_get_amended c24 0 319 0 (by rw [show c24.y_pos = -4 from rfl]; omega)
    (by rw [show c24.y_pos = -4 from rfl, hlen]; omega)
  have h320 := c8_get_amended c24 0 320 0 (by rw [show c24.y_pos = -4 from rfl]; omega)
    (by rw [show c24.y_pos = -4 from rfl, hlen]; omega)
  have h16 := c8_get_amended c24 16 0 0 (by rw [show c24.y_pos = -4 from rfl]; omega)
    (by rw [show c24.y_pos = -4 from rfl, hlen]; omega)
  refine ⟨by rw [show c24.y_pos = -4 from rfl]; omega, ?_, ?_, ?_, ?_, ?_⟩
  · rw [h0.1, show c24.y_pos = -4 from rfl, hlen]
    norm_num
  · rw [h0.2.2 (by omega) (by omega)
      (by rw [show c24.y_pos = -4 from rfl]; omega)
      (by rw [show c24.y_pos = -4 from rfl, hlen]; omega)]
    rw [show ((-64 : Int) - c24.y_pos * 16).toNat = 0 from by
      rw [show c24.y_pos = -4 from rfl]; norm_num]
    rw [show (0 : Nat) / 16 = 0 from by norm_num, show (0 : Nat) % 16 = 0 from by norm_num]
    rw [show c24.sections.getD 0 ⟨[]⟩ = secA from by
      show (List.replicate 23 secA ++ [secB]).getD 0 ⟨[]⟩ = secA
      rw [List.getD_eq_getElem?_getD,
        List.getElem?_append_left (by rw [List.length_replicate]; omega),
        List.getElem?_replicate, if_pos (by omega)]
      rfl]
    rw [Section.get_block, if_neg (by omega),
      show Section.get_block_pos 0 0 0 = 0 from by decide,
      show secA.blocks = List.replicate 4096 bA from rfl,
      List.getElem?_replicate, if_pos (by omega)]
  · rw [h319.2.2 (by omega) (by omega)
      (by rw [show c24.y_pos = -4 from rfl]; omega)
      (by rw [show c24.y_pos = -4 from rfl, hlen]; omega)]
    rw [show ((319 : Int) - c24.y_pos * 16).toNat = 383 from by
      rw [show c24.y_pos = -4 from rfl]; rfl]
    rw [show (383 : Nat) / 16 = 23 from by norm_num,
      show (383 : Nat) % 16 = 15 from by norm_num]
    rw [show c24.sections.getD 23 ⟨[]⟩ = secB from by
      show (List.replicate 23 secA ++ [secB]).getD 23 ⟨[]⟩ = secB
      rw [List.getD_eq_getElem?_getD,
        List.getElem?_append_right (by rw [List.length_replicate]),
        List.length_replicate]
      rfl]
    rw [Section.get_block, if_neg (by omega),
      show Section.get_block_pos 0 15 0 = 3840 from by decide]
    rw [show secB.blocks = (List.replicate 4096 bB).set 3840 bC from rfl,
      List.getElem?_set_self (by rw [List.length_replicate]; omega)]
  · rw [h320.2.1 (by right; right; right; rw [show c24.y_pos = -4 from rfl, hlen]; omega)]
  · rw [h16.2.1 (by left; omega)]

/-- C4 (counterexample): the claim reads the required minimum as
`bits_per_index` 64-bit words (`data.length * 64 >= bits_per_index * 64`),
so the section `s4` (palette length 2, hence `bits_per_index = 4`, and 4
data words) should pass the length check; the code instead compares the
word count against `bits_per_index * 64 = 256` and rejects it with
`InvalidSectionData`. -/
theorem c4_word_count_counterexample :
    ¬ ((4 : Nat) * 64 < bitsPerIndex 2 * 64) ∧
    parseSection s4 = .err .invalidSectionData :=
  ⟨by decide, rfl⟩

/-- C4 (amended): for a section reaching the data stage with palette length
at least 2, the length check fails with `InvalidSectionData` exactly when
the `data` word count is below `bits_per_index * 64` (words, not bits); a
`data` array meeting that bound passes the length check and the result is
decided by the unpacking loop. -/
theorem c4_length_check_amended (sec bs : List (String × Nbt))
    (origPalette : List (List (String × Nbt))) (palette : List Block) (dataI : List Int)
    (hbs : getField sec "block_states" asCompound = some bs)
    (hpal : getField bs "palette" asListCompound = some origPalette)
    (hbuild : buildPalette origPalette = .ok palette)
    (h2 : 2 ≤ origPalette.length)
    (hdata : getField bs "data" asLongArray = some dataI) :
    (dataI.length < bitsPerIndex origPalette.length * 64 →
      parseSection sec = .err .invalidSectionData) ∧
    (bitsPerIndex origPalette.length * 64 ≤ dataI.length →
      parseSection sec =
        match unpackAux (dataI.map i64toU64) (bitsPerIndex origPalette.length)
            origPalette.length 4096 0 0 with
        | .panic => .panic
        | .oor => .err .invalidSectionData
        | .ok idxs => .ok ⟨idxs.map fun i => palette.getD i defBlock⟩) :=
  ⟨fun h => parseSection_data_short sec bs origPalette palette dataI
      hbs hpal hbuild h2 hdata h,
   fun h => parseSection_data_stage sec bs origPalette palette dataI
      hbs hpal hbuild h2 hdata (by omega)⟩

/-- Witness for the amended C4: the 3-word section `s3` is rejected at the
length check, while the 256-word section `sOk256` passes it and proceeds to
the unpacking loop. -/
theorem c4_length_check_amended_witness :
    ((3 : Nat) < bitsPerIndex 2 * 64 ∧ parseSection s3 = .err .invalidSectionData) ∧
    (bitsPerIndex 2 * 64 ≤ (256 : Nat) ∧
      parseSection sOk256 =
        match unpackAux ((List.replicate 256 (0 : Int)).map i64toU64) (bitsPerIndex 2)
            2 4096 0 0 with
        | .panic => .panic
        | .oor => .err .invalidSectionData
        | .ok idxs => .ok ⟨idxs.map fun i => [bA, bB].getD i defBlock⟩) := by
  have h3 := c4_length_check_amended s3
    [("palette", .listTag [pA, pB]), ("data", .longArray [0, 0, 0])]
    [[("Name", .str "a")], [("Name", .str "b")]] [bA, bB] [0, 0, 0]
    rfl rfl rfl (by decide) rfl
  have h256 := c4_length_check_amended sOk256
    [("palette", .listTag [pA, pB]), ("data", .longArray (List.replicate 256 0))]
    [[("Name", .str "a")], [("Name", .str "b")]] [bA, bB] (List.replicate 256 0)
    rfl rfl rfl (by decide) rfl
  refine ⟨⟨by decide, h3.1 (by decide)⟩, ⟨by decide, ?_⟩⟩
  have h := h256.2 (by rw [List.length_replicate]; decide)
  rw [show ([[("Name", Nbt.str "a")], [("Name", Nbt.str "b")]] :
    List (List (String × Nbt))).length = 2 from rfl] at h
  exact h

/-- Splitting lemma: `parseSections` over a list whose prefix parses
successfully is decided by the rest. -/
theorem parseSections_append (pre rest : List (List (String × Nbt))) (ds : List Section)
    (h : parseSections pre = .ok ds) :
    parseSections (pre ++ rest) =
      match parseSections rest with
      | .panic => .panic
      | .err e => .err e
      | .ok ss => .ok (ds ++ ss) := by
  induction pre generalizing ds with
  | nil =>
    rw [show parseSections [] = .ok [] from rfl] at h
    injection h with h
    subst h
    rw [List.nil_append]
    cases hr : parseSections rest with
    | panic => rfl
    | err e => rfl
    | ok ss =>
      show PRes.ok ss = PRes.ok ([] ++ ss)
      rw [List.nil_append]
  | cons s pre2 ih =>
    rw [List.cons_append]
    rw [parseSections] at h ⊢
    cases hs : parseSection s with
    | panic => rw [hs] at h; cases h
    | err e => rw [hs] at h; cases h
    | ok sec =>
      rw [hs] at h
      replace h : (match parseSections pre2 with
        | PRes.panic => PRes.panic
        | PRes.err e => PRes.err e
        | PRes.ok ss => PRes.ok (sec :: ss)) = PRes.ok ds := h
      show (match parseSections (pre2 ++ rest) with
        | PRes.panic => PRes.panic
        | PRes.err e => PRes.err e
        | PRes.ok ss => PRes.ok (sec :: ss)) = _
      cases hp : parseSections pre2 with
      | panic => rw [hp] at h; cases h
      | err e => rw [hp] at h; cases h
      | ok ss2 =>
        rw [hp] at h
        replace h : PRes.ok (sec :: ss2) = PRes.ok ds := h
        injection h with h
        subst h
        rw [ih ss2 hp]
        cases hr : parseSections rest with
        | panic => rfl
        | err e => rfl
        | ok ss =>
          show PRes.ok (sec :: (ss2 ++ ss)) = PRes.ok (sec :: ss2 ++ ss)
          rw [List.cons_append]

/-- Folding cells none of which panics collects the per-cell values. -/
theorem collectCells_ret (ext : Externals) (b : Buf) (l : List Nat)
    (h : ∀ i ∈ l, (parseCell ext b i).isPanic = false) :
    collectCells ext b l = .ret (l.map fun i => cellVal (parseCell ext b i)) := by
  induction l with
  | nil => rfl
  | cons i rest ih =>
    have hi := h i (List.mem_cons_self i rest)
    rw [List.map_cons, collectCells]
    cases hp : parseCell ext b i with
    | panic => rw [hp] at hi; cases hi
    | ret c =>
      rw [ih fun j hj => h j (List.mem_cons_of_mem i hj)]
      rfl

/-- C5: a section one of whose 4096 extracted indices is at least the
palette length makes the whole chunk decode fail with
`InvalidSectionData`, and at the region level a cell whose payload fails to
decode is reported absent while the parse still succeeds, with every other
cell holding exactly its own independent decode result. -/
theorem c5_oor_index_and_best_effort
    (decoded : List (String × Nbt)) (y0 : Int)
    (pre post : List (List (String × Nbt))) (sec bs : List (String × Nbt))
    (ds : List Section) (origPalette : List (List (String × Nbt)))
    (palette : List Block) (dataI : List Int)
    (hy : getField decoded "yPos" asInt = some y0)
    (hsecs : getField decoded "sections" asListCompound = some (pre ++ sec :: post))
    (hpre : parseSections pre = .ok ds)
    (hbs : getField sec "block_states" asCompound = some bs)
    (hpal : getField bs "palette" asListCompound = some origPalette)
    (hbuild : buildPalette origPalette = .ok palette)
    (h2 : 2 ≤ origPalette.length)
    (hdata : getField bs "data" asLongArray = some dataI)
    (hlen : bitsPerIndex origPalette.length * 64 ≤ dataI.length)
    (hoor : unpackAux (dataI.map i64toU64) (bitsPerIndex origPalette.length)
      origPalette.length 4096 0 0 = .oor)
    (ext : Externals) (b : Buf) (i : Nat)
    (hsz : 8192 ≤ b.len) (hmul : b.len % 4096 = 0)
    (hnp : ∀ j ∈ List.range 1024, (parseCell ext b j).isPanic = false)
    (hcell : ¬ (locOffset b i = 0 ∧ locCount b i = 0 ∧ timestampAt b i = 0))
    (hfit : locOffset b i * 4096 + locCount b i * 4096 ≤ b.len)
    (hfail : parse_chunk ext
        (sliceList b (locOffset b i * 4096) (locCount b i * 4096)) =
      .err .invalidSectionData) :
    parseChunkNbt decoded = .err .invalidSectionData ∧
    Region.parse_bytes ext b =
      .ok ⟨(List.range 1024).map fun j => cellVal (parseCell ext b j)⟩ ∧
    cellVal (parseCell ext b i) = none := by
  refine ⟨?_, ?_, ?_⟩
  · have hsec : parseSection sec = .err .invalidSectionData := by
      rw [parseSection_data_stage sec bs origPalette palette dataI
        hbs hpal hbuild h2 hdata hlen, hoor]
    rw [parseChunkNbt, hy, hsecs]
    show (match parseSections (pre ++ sec :: post) with
      | PRes.panic => PRes.panic
      | PRes.err e => PRes.err e
      | PRes.ok secs => PRes.ok (Chunk.mk y0 secs)) = _
    rw [parseSections_append pre (sec :: post) ds hpre, parseSections, hsec]
  · rw [Region.parse_bytes, if_neg (by omega), if_pos hmul,
      collectCells_ret ext b _ hnp]
  · rw [parseCell]
    rw [if_neg hcell, if_neg (by omega), hfail]
    rfl

/-- Length of a payload slice. -/
theorem sliceList_length (b : Buf) (s n : Nat) : (sliceList b s n).length = n := by
  simp [sliceList]

/-- Indexing into a payload slice. -/
theorem sliceList_getD (b : Buf) (s n j : Nat) (h : j < n) :
    (sliceList b s n).getD j 0 = b.byteAt (s + j) := by
  rw [sliceList, List.getD_eq_getElem?_getD, List.getElem?_map]
  rw [List.getElem?_range h]
  rfl

/-- Dropping then taking inside a payload slice is the inner slice. -/
theorem sliceList_drop_take (b : Buf) (s n d t : Nat) (h : d + t ≤ n) :
    ((sliceList b s n).drop d).take t = sliceList b (s + d) t := by
  apply List.ext_getElem?
  intro j
  rw [List.getElem?_take, List.getElem?_drop]
  rw [sliceList, sliceList, List.getElem?_map, List.getElem?_map]
  by_cases hj : j < t
  · rw [if_pos hj, List.getElem?_range (by omega), List.getElem?_range hj]
    show some (b.byteAt (s + (d + j))) = some (b.byteAt (s + d + j))
    rw [Nat.add_assoc]
  · rw [if_neg hj, List.getElem?_eq_none (by rw [List.length_range]; omega)]
    rfl

/-- Reduction of `parse_chunk` for an uncompressed (tag 3) payload whose
declared length fits: the result is the tree parse of the raw body. -/
theorem parse_chunk_tag3 (ext : Externals) (bytes : List Nat) (L : Nat)
    (h5 : 5 ≤ bytes.length)
    (hL : be32 (bytes.getD 0 0) (bytes.getD 1 0) (bytes.getD 2 0) (bytes.getD 3 0) = L)
    (hfits : L + 5 ≤ bytes.length)
    (htag : bytes.getD 4 0 = 3) :
    parse_chunk ext bytes =
      match ext.parseNbt ((bytes.drop 5).take L) with
      | .error _ => .err .parseFailed
      | .ok decoded => parseChunkNbt decoded := by
  simp only [parse_chunk, hL, htag]
  rw [if_neg (by omega), if_neg (by omega), if_neg (by omega)]
  rw [if_neg (by omega), if_neg (by omega), if_pos trivial]

/-- Bytes of `bufC5` outside its ten marked positions are zero (all header
reads of cells 2..1023 land in [8, 8191]). -/
theorem bufC5_zero (i : Nat) (h8 : 8 ≤ i) (h81 : i ≤ 8191) : bufC5.byteAt i = 0 := by
  show (if i = 2 then 2 else if i = 3 then 1 else
    if i = 6 then 3 else if i = 7 then 1 else
    if i = 8195 then 1 else if i = 8196 then 3 else if i = 8197 then 7 else
    if i = 12291 then 1 else if i = 12292 then 3 else if i = 12293 then 8 else 0) = 0
  have g2 : ¬ i = 2 := by omega
  have g3 : ¬ i = 3 := by omega
  have g6 : ¬ i = 6 := by omega
  have g7 : ¬ i = 7 := by omega
  have ga : ¬ i = 8195 := by omega
  have gb : ¬ i = 8196 := by omega
  have gc : ¬ i = 8197 := by omega
  have gd : ¬ i = 12291 := by omega
  have ge : ¬ i = 12292 := by omega
  have gf : ¬ i = 12293 := by omega
  rw [if_neg g2, if_neg g3, if_neg g6, if_neg g7, if_neg ga, if_neg gb, if_neg gc,
    if_neg gd, if_neg ge, if_neg gf]

/-- Cell 0 of `bufC5` decodes to the empty chunk delivered by `nbtGood`. -/
theorem bufC5_cell0 : parseCell extC5 bufC5 0 = .ret (some ⟨0, []⟩) := by
  show (if locOffset bufC5 0 = 0 ∧ locCount bufC5 0 = 0 ∧ timestampAt bufC5 0 = 0 then
      PanicOr.ret none
    else if bufC5.len < locOffset bufC5 0 * 4096 + locCount bufC5 0 * 4096 then
      PanicOr.panic
    else
      match parse_chunk extC5
        (sliceList bufC5 (locOffset bufC5 0 * 4096) (locCount bufC5 0 * 4096)) with
      | .panic => PanicOr.panic
      | .err _ => PanicOr.ret none
      | .ok c => PanicOr.ret (some c)) = _
  rw [show locOffset bufC5 0 = 2 from by decide,
    show locCount bufC5 0 = 1 from by decide,
    show timestampAt bufC5 0 = 0 from by decide]
  rw [if_neg (by omega), if_neg (by decide)]
  rw [show (2 : Nat) * 4096 = 8192 from by norm_num,
    show (1 : Nat) * 4096 = 4096 from by norm_num]
  rw [parse_chunk_tag3 extC5 _ 1
    (by rw [sliceList_length]; omega)
    (by
      rw [show ((sliceList bufC5 8192 4096).getD 0 0) = bufC5.byteAt 8192 from
          sliceList_getD _ _ _ _ (by omega),
        show ((sliceList bufC5 8192 4096).getD 1 0) = bufC5.byteAt 8193 from
          sliceList_getD _ _ _ _ (by omega),
        show ((sliceList bufC5 8192 4096).getD 2 0) = bufC5.byteAt 8194 from
          sliceList_getD _ _ _ _ (by omega),
        show ((sliceList bufC5 8192 4096).getD 3 0) = bufC5.byteAt 8195 from
          sliceList_getD _ _ _ _ (by omega)]
      decide)
    (by rw [sliceList_length]; omega)
    (by
      rw [show ((sliceList bufC5 8192 4096).getD 4 0) = bufC5.byteAt 8196 from
        sliceList_getD _ _ _ _ (by omega)]
      decide)]
  rw [show ((sliceList bufC5 8192 4096).drop 5).take 1 = sliceList bufC5 8197 1 from by
    rw [sliceList_drop_take bufC5 8192 4096 5 1 (by omega)]]
  rw [show sliceList bufC5 8197 1 = [7] from by decide]
  rw [show extC5.parseNbt [7] = .ok nbtGood from rfl]
  rfl

/-- The chunk document `nbtBad` fails with `InvalidSectionData`: its one
section extracts the index 15 against a palette of length 2. -/
theorem parseChunkNbt_nbtBad : parseChunkNbt nbtBad = .err .invalidSectionData := by
  have hoor : unpackAux ((15 :: List.replicate 255 (0 : Int)).map i64toU64)
      (bitsPerIndex 2) 2 4096 0 0 = .oor := by
    rw [show (15 :: List.replicate 255 (0 : Int)).map i64toU64 =
        15 :: List.replicate 255 0 from by
      rw [List.map_cons, List.map_replicate]
      rfl]
    rw [show bitsPerIndex 2 = 4 from by decide]
    exact unpackAux_norm_oor _ _ _ 4095 _ _ 15 (by omega) rfl (by decide)
  have hsec : parseSection secBadFields = .err .invalidSectionData := by
    rw [parseSection_data_stage secBadFields
      [("palette", Nbt.listTag [pA, pB]),
       ("data", Nbt.longArray (15 :: List.replicate 255 0))]
      [[("Name", Nbt.str "a")], [("Name", Nbt.str "b")]] [bA, bB]
      (15 :: List.replicate 255 0) rfl rfl rfl (by decide) rfl (by decide)]
    rw [show ([[("Name", Nbt.str "a")], [("Name", Nbt.str "b")]] :
      List (List (String × Nbt))).length = 2 from rfl]
    rw [hoor]
  show (match parseSections [secBadFields] with
    | PRes.panic => PRes.panic
    | PRes.err e => PRes.err e
    | PRes.ok secs => PRes.ok (Chunk.mk 0 secs)) = _
  rw [parseSections, hsec]

/-- Cell 1 of `bufC5` holds the payload of `nbtBad` and fails to decode. -/
theorem bufC5_chunk1 :
    parse_chunk extC5 (sliceList bufC5 12288 4096) = .err .invalidSectionData := by
  rw [parse_chunk_tag3 extC5 _ 1
    (by rw [sliceList_length]; omega)
    (by
      rw [show ((sliceList bufC5 12288 4096).getD 0 0) = bufC5.byteAt 12288 from
          sliceList_getD _ _ _ _ (by omega),
        show ((sliceList bufC5 12288 4096).getD 1 0) = bufC5.byteAt 12289 from
          sliceList_getD _ _ _ _ (by omega),
        show ((sliceList bufC5 12288 4096).getD 2 0) = bufC5.byteAt 12290 from
          sliceList_getD _ _ _ _ (by omega),
        show ((sliceList bufC5 12288 4096).getD 3 0) = bufC5.byteAt 12291 from
          sliceList_getD _ _ _ _ (by omega)]
      decide)
    (by rw [sliceList_length]; omega)
    (by
      rw [show ((sliceList bufC5 12288 4096).getD 4 0) = bufC5.byteAt 12292 from
        sliceList_getD _ _ _ _ (by omega)]
      decide)]
  rw [show ((sliceList bufC5 12288 4096).drop 5).take 1 = sliceList bufC5 12293 1 from by
    rw [sliceList_drop_take bufC5 12288 4096 5 1 (by omega)]]
  rw [show sliceList bufC5 12293 1 = [8] from by decide]
  rw [show extC5.parseNbt [8] = .ok nbtBad from rfl]
  show parseChunkNbt nbtBad = _
  exact parseChunkNbt_nbtBad

/-- Cell 1 of `bufC5` is downgraded to absent. -/
theorem bufC5_cell1 : parseCell extC5 bufC5 1 = .ret none := by
  show (if locOffset bufC5 1 = 0 ∧ locCount bufC5 1 = 0 ∧ timestampAt bufC5 1 = 0 then
      PanicOr.ret none
    else if bufC5.len < locOffset bufC5 1 * 4096 + locCount bufC5 1 * 4096 then
      PanicOr.panic
    else
      match parse_chunk extC5
        (sliceList bufC5 (locOffset bufC5 1 * 4096) (locCount bufC5 1 * 4096)) with
      | .panic => PanicOr.panic
      | .err _ => PanicOr.ret none
      | .ok c => PanicOr.ret (some c)) = _
  rw [show locOffset bufC5 1 = 3 from by decide,
    show locCount bufC5 1 = 1 from by decide,
    show timestampAt bufC5 1 = 0 from by decide]
  rw [if_neg (by omega), if_neg (by decide)]
  rw [show (3 : Nat) * 4096 = 12288 from by norm_num,
    show (1 : Nat) * 4096 = 4096 from by norm_num]
  rw [bufC5_chunk1]

/-- No cell of `bufC5` panics: cells 0 and 1 decode (the latter to an
error, downgraded to absent) and every other cell is absent. -/
theorem bufC5_no_panic : ∀ j ∈ List.range 1024, (parseCell extC5 bufC5 j).isPanic = false := by
  intro j hj
  rw [List.mem_range] at hj
  match j, hj with
  | 0, _ => rw [bufC5_cell0]; rfl
  | 1, _ => rw [bufC5_cell1]; rfl
  | j + 2, hj =>
    have h0 : locOffset bufC5 (j + 2) = 0 := by
      rw [locOffset, bufC5_zero (4 * (j + 2)) (by omega) (by omega),
        bufC5_zero (4 * (j + 2) + 1) (by omega) (by omega),
        bufC5_zero (4 * (j + 2) + 2) (by omega) (by omega)]
    have h1 : locCount bufC5 (j + 2) = 0 := bufC5_zero _ (by omega) (by omega)
    have h2t : timestampAt bufC5 (j + 2) = 0 := by
      rw [timestampAt, bufC5_zero (4096 + 4 * (j + 2)) (by omega) (by omega),
        bufC5_zero (4096 + 4 * (j + 2) + 1) (by omega) (by omega),
        bufC5_zero (4096 + 4 * (j + 2) + 2) (by omega) (by omega),
        bufC5_zero (4096 + 4 * (j + 2) + 3) (by omega) (by omega)]
      norm_num [be32]
    rw [parseCell_absent extC5 bufC5 (j + 2) ⟨h0, h1, h2t⟩]
    rfl

/-- Witness for C5 on `bufC5`: the failing payload of cell 1 is reported
absent, the region parse succeeds, and cell 0 decodes normally. -/
theorem c5_oor_index_and_best_effort_witness :
    parseChunkNbt nbtBad = .err .invalidSectionData ∧
    Region.parse_bytes extC5 bufC5 =
      .ok ⟨(List.range 1024).map fun j => cellVal (parseCell extC5 bufC5 j)⟩ ∧
    cellVal (parseCell extC5 bufC5 1) = none ∧
    cellVal (parseCell extC5 bufC5 0) = some ⟨0, []⟩ := by
  have h := c5_oor_index_and_best_effort nbtBad 0 [] []
    secBadFields
    [("palette", Nbt.listTag [pA, pB]),
     ("data", Nbt.longArray (15 :: List.replicate 255 0))]
    [] [[("Name", Nbt.str "a")], [("Name", Nbt.str "b")]] [bA, bB]
    (15 :: List.replicate 255 0)
    rfl rfl rfl rfl rfl rfl (by decide) rfl (by decide)
    (by
      rw [show ([[("Name", Nbt.str "a")], [("Name", Nbt.str "b")]] :
        List (List (String × Nbt))).length = 2 from rfl]
      rw [show (15 :: List.replicate 255 (0 : Int)).map i64toU64 =
          15 :: List.replicate 255 0 from by
        rw [List.map_cons, List.map_replicate]
        rfl]
      rw [show bitsPerIndex 2 = 4 from by decide]
      exact unpackAux_norm_oor _ _ _ 4095 _ _ 15 (by omega) rfl (by decide))
    extC5 bufC5 1 (by decide) (by decide) bufC5_no_panic (by decide) (by decide)
    (by
      rw [show locOffset bufC5 1 = 3 from by decide,
        show locCount bufC5 1 = 1 from by decide]
      rw [show (3 : Nat) * 4096 = 12288 from by norm_num,
        show (1 : Nat) * 4096 = 4096 from by norm_num]
      exact bufC5_chunk1)
  exact ⟨h.1, h.2.1, h.2.2, by rw [bufC5_cell0]; rfl⟩

/-- For widths below 64 the mask is exactly the low `bpi` bits. -/
theorem maskOf_lt (bpi : Nat) (h : bpi < 64) : maskOf bpi = 2 ^ bpi - 1 := by
  rw [maskOf, Nat.mod_eq_of_lt h]

/-- Bit extraction from a packed word: shifting entry `j` of the group down
to bit 0 and masking recovers it, provided every entry fits in `bpi`
bits. -/
theorem packWord_extract (bpi : Nat) (g : List Nat) (hall : ∀ v ∈ g, v < 2 ^ bpi) :
    ∀ j, j < g.length → (packWord bpi g >>> (j * bpi)) &&& (2 ^ bpi - 1) = g.getD j 0 := by
  induction g with
  | nil => intro j hj; cases hj
  | cons v rest ih =>
    intro j hj
    cases j with
    | zero =>
      rw [Nat.zero_mul, Nat.shiftRight_zero, packWord,
        Nat.and_pow_two_sub_one_eq_mod, Nat.add_mul_mod_self_left,
        Nat.mod_eq_of_lt (hall v (List.mem_cons_self v rest))]
      rfl
    | succ j =>
      rw [packWord, Nat.succ_mul, Nat.add_comm (j * bpi) bpi, Nat.shiftRight_add,
        Nat.shiftRight_eq_div_pow _ bpi,
        Nat.add_mul_div_left v (packWord bpi rest) (Nat.pos_pow_of_pos bpi (by omega)),
        Nat.div_eq_of_lt (hall v (List.mem_cons_self v rest)), Nat.zero_add]
      rw [ih (fun w hw => hall w (List.mem_cons_of_mem v hw)) j (by
        rw [List.length_cons] at hj
        omega)]
      rfl

/-- A nonempty list is its head (as `getD 0`) consed on its tail. -/
theorem getD_cons_drop (l : List Nat) (h : 0 < l.length) :
    l.getD 0 0 :: l.drop 1 = l := by
  cases l with
  | nil => cases h
  | cons v t => rfl

/-- Dropping `j` splits off entry `j` (as `getD`). -/
theorem drop_cons_getD (g : List Nat) (j : Nat) (h : j < g.length) :
    g.drop j = g.getD j 0 :: g.drop (j + 1) := by
  rw [List.getD_eq_getElem g 0 h]
  exact List.drop_eq_getElem_cons h

/-- Main unpacking invariant: with the words of the remaining well-formed
groups laid out after `pre` and the loop positioned `j` entries into the
first group, the loop reproduces exactly the remaining indices. -/
theorem unpack_go (bpi p : Nat) (hb1 : 1 ≤ bpi) (hb64 : bpi < 64) (hp : p ≤ 2 ^ bpi) :
    ∀ (n : Nat) (g : List Nat) (gs : List (List Nat)) (pre : List Nat) (j : Nat),
      groupsWF (64 / bpi) (g :: gs) →
      (∀ v ∈ g, v < p) → (∀ l ∈ gs, ∀ v ∈ l, v < p) →
      j ≤ g.length →
      n = (g.length - j) + (gs.map List.length).sum →
      unpackAux (pre ++ (g :: gs).map (packWord bpi)) bpi p n pre.length (j * bpi) =
        .ok (g.drop j ++ gs.flatten) := by
  intro n
  induction n using Nat.strong_induction_on with
  | _ n ih =>
    intro g gs pre j hwf hg hgs hj hn
    obtain ⟨h1g, hgk, hlast, hwfs⟩ := hwf
    have hkmul : 64 / bpi * bpi ≤ 64 := Nat.div_mul_le_self 64 bpi
    have hmod : 64 % bpi < bpi := Nat.mod_lt 64 (by omega)
    have hdm : bpi * (64 / bpi) + 64 % bpi = 64 := Nat.div_add_mod 64 bpi
    have hdm2 : 64 / bpi * bpi + 64 % bpi = 64 := by
      rw [Nat.mul_comm] at hdm
      exact hdm
    have hglenmul : g.length * bpi ≤ 64 :=
      le_trans (Nat.mul_le_mul_right bpi hgk) hkmul
    by_cases hjlen : j < g.length
    · -- in-word read
      have hsucc : (j + 1) * bpi = j * bpi + bpi := Nat.succ_mul j bpi
      have hjsucc : (j + 1) * bpi ≤ 64 :=
        le_trans (Nat.mul_le_mul_right bpi (by omega)) hglenmul
      obtain ⟨m, rfl⟩ : ∃ m, n = m + 1 := ⟨n - 1, by omega⟩
      have hw : (pre ++ (g :: gs).map (packWord bpi))[pre.length]? =
          some (packWord bpi g) := by
        rw [List.getElem?_append_right (Nat.le_refl pre.length), Nat.sub_self,
          List.map_cons, List.getElem?_cons_zero]
      have hex : (packWord bpi g >>> (j * bpi)) &&& maskOf bpi = g.getD j 0 := by
        rw [maskOf_lt bpi hb64]
        exact packWord_extract bpi g
          (fun v hv => lt_of_lt_of_le (hg v hv) hp) j hjlen
      have hlt : g.getD j 0 < p := by
        apply hg
        rw [List.getD_eq_getElem g 0 hjlen]
        exact List.getElem_mem hjlen
      by_cases h64 : j * bpi + bpi = 64
      · -- word filled exactly: advance to the next word at offset 0
        have h64m : (j + 1) * bpi = 64 := by omega
        have hjk : 64 / bpi = j + 1 := Nat.div_eq_of_eq_mul_left (by omega) h64m.symm
        have hglen : g.length = j + 1 := by omega
        rw [unpackAux_norm_some64 _ _ _ m _ _ (packWord bpi g) (by omega) hw
          (by rw [hex]; omega) h64]
        rw [hex]
        cases gs with
        | nil =>
          have hm : m = 0 := by
            simp only [List.map_nil, List.sum_nil] at hn
            omega
          subst hm
          rw [show unpackAux (pre ++ [g].map (packWord bpi)) bpi p 0
            (pre.length + 1) 0 = .ok [] from rfl]
          rw [drop_cons_getD g j hjlen, List.drop_eq_nil_of_le (by omega),
            List.flatten_nil]
          rfl
        | cons g2 gs2 =>
          simp only [List.map_cons, List.sum_cons] at hn
          have happ := ih m (by omega) g2 gs2 (pre ++ [packWord bpi g]) 0 hwfs
            (hgs g2 (List.mem_cons_self g2 gs2))
            (fun l hl => hgs l (List.mem_cons_of_mem g2 hl))
            (by omega) (by omega)
          rw [List.append_assoc, List.singleton_append, List.length_append,
            List.length_singleton, Nat.zero_mul, List.drop_zero] at happ
          rw [List.map_cons]
          rw [show List.map (packWord bpi) (g2 :: gs2) =
            packWord bpi g2 :: List.map (packWord bpi) gs2 from List.map_cons _ _ _] at happ ⊢
          rw [happ]
          rw [drop_cons_getD g j hjlen, List.drop_eq_nil_of_le (by omega)]
          rw [List.flatten_cons]
          rfl
      · -- stay in the word at the advanced offset
        rw [unpackAux_norm_some _ _ _ m _ _ (packWord bpi g) (by omega) hw
          (by rw [hex]; omega) h64]
        rw [hex]
        have happ := ih m (by omega) g gs pre (j + 1) ⟨h1g, hgk, hlast, hwfs⟩ hg hgs
          (by omega) (by omega)
        rw [hsucc] at happ
        rw [happ, drop_cons_getD g j hjlen]
        rfl
    · -- j = g.length: the group is exhausted
      have hjeq : j = g.length := by omega
      subst hjeq
      cases gs with
      | nil =>
        have hn0 : n = 0 := by
          simp only [List.map_nil, List.sum_nil] at hn
          omega
        subst hn0
        rw [show unpackAux (pre ++ [g].map (packWord bpi)) bpi p 0
          pre.length (g.length * bpi) = .ok [] from rfl]
        rw [List.drop_length, List.flatten_nil]
        rfl
      | cons g2 gs2 =>
        obtain ⟨h1g2, hg2k, hlast2, hwfs2⟩ := hwfs
        have hglen : g.length = 64 / bpi := by
          rcases hlast with h | h
          · cases h
          · exact h
        simp only [List.map_cons, List.sum_cons] at hn
        obtain ⟨m, rfl⟩ : ∃ m, n = m + 1 := ⟨n - 1, by omega⟩
        have hcross : 64 < g.length * bpi + bpi := by
          rw [hglen]
          omega
        have hw2 : (pre ++ (g :: g2 :: gs2).map (packWord bpi))[pre.length + 1]? =
            some (packWord bpi g2) := by
          rw [List.getElem?_append_right (by omega), Nat.add_sub_cancel_left,
            List.map_cons, List.getElem?_cons_succ, List.map_cons,
            List.getElem?_cons_zero]
        have hex0 : packWord bpi g2 &&& maskOf bpi = g2.getD 0 0 := by
          have h := packWord_extract bpi g2
            (fun v hv => lt_of_lt_of_le (hgs g2 (List.mem_cons_self g2 gs2) v hv) hp)
            0 (by omega)
          rw [Nat.zero_mul, Nat.shiftRight_zero] at h
          rw [maskOf_lt bpi hb64]
          exact h
        have hlt0 : g2.getD 0 0 < p := by
          apply hgs g2 (List.mem_cons_self g2 gs2)
          rw [List.getD_eq_getElem g2 0 (by omega)]
          exact List.getElem_mem (by omega)
        rw [unpackAux_cross_some _ _ _ m _ _ (packWord bpi g2) hcross hw2
          (by rw [hex0]; omega)]
        rw [hex0]
        have happ := ih m (by omega) g2 gs2 (pre ++ [packWord bpi g]) 1
          (show groupsWF (64 / bpi) (g2 :: gs2) from ⟨h1g2, hg2k, hlast2, hwfs2⟩)
          (hgs g2 (List.mem_cons_self g2 gs2))
          (fun l hl => hgs l (List.mem_cons_of_mem g2 hl))
          (by omega) (by omega)
        rw [List.append_assoc, List.singleton_append, List.length_append,
          List.length_singleton, Nat.one_mul] at happ
        rw [show List.map (packWord bpi) (g2 :: gs2) =
          packWord bpi g2 :: List.map (packWord bpi) gs2 from List.map_cons _ _ _] at happ
        rw [List.map_cons]
        rw [show List.map (packWord bpi) (g2 :: gs2) =
          packWord bpi g2 :: List.map (packWord bpi) gs2 from List.map_cons _ _ _]
        rw [happ]
        rw [List.drop_length, List.flatten_cons, List.nil_append]
        rw [show g2.drop 1 ++ gs2.flatten =
          List.drop 1 g2 ++ gs2.flatten from rfl]
        rw [show (UnpackRes.cons (g2.getD 0 0) (UnpackRes.ok (g2.drop 1 ++ gs2.flatten))) =
          UnpackRes.ok (g2.getD 0 0 :: (g2.drop 1 ++ gs2.flatten)) from rfl]
        rw [show g2.getD 0 0 :: (g2.drop 1 ++ gs2.flatten) =
          (g2.getD 0 0 :: g2.drop 1) ++ gs2.flatten from rfl]
        rw [getD_cons_drop g2 (by omega)]

/-- `packGroups` of the empty list is empty at any fuel. -/
theorem packGroups_nil (k : Nat) : ∀ fuel, packGroups k fuel [] = [] := by
  intro fuel
  cases fuel <;> rfl

/-- Concatenating the groups recovers the index list. -/
theorem packGroups_flatten (k : Nat) (hk : 1 ≤ k) :
    ∀ (fuel : Nat) (xs : List Nat), xs.length ≤ fuel →
      (packGroups k fuel xs).flatten = xs := by
  intro fuel
  induction fuel with
  | zero =>
    intro xs h
    rw [show xs = [] from List.eq_nil_of_length_eq_zero (by omega)]
    rfl
  | succ m ihf =>
    intro xs h
    cases xs with
    | nil => rfl
    | cons x rest =>
      rw [packGroups, List.flatten_cons]
      rw [ihf ((x :: rest).drop k) (by
        rw [List.length_drop]
        rw [List.length_cons] at h ⊢
        omega)]
      exact List.take_append_drop k (x :: rest)

/-- The groups produced by `packGroups` are well formed. -/
theorem packGroups_wf (k : Nat) (hk : 1 ≤ k) :
    ∀ (fuel : Nat) (xs : List Nat), xs.length ≤ fuel →
      groupsWF k (packGroups k fuel xs) := by
  intro fuel
  induction fuel with
  | zero =>
    intro xs h
    rw [show xs = [] from List.eq_nil_of_length_eq_zero (by omega)]
    exact trivial
  | succ m ihf =>
    intro xs h
    cases xs with
    | nil => exact trivial
    | cons x rest =>
      rw [packGroups]
      rw [List.length_cons] at h
      refine ⟨?_, ?_, ?_, ihf _ (by rw [List.length_drop, List.length_cons]; omega)⟩
      · rw [List.length_take, List.length_cons]
        omega
      · rw [List.length_take]
        omega
      · by_cases hlen : (x :: rest).length ≤ k
        · left
          rw [List.drop_eq_nil_of_le hlen, packGroups_nil]
        · right
          rw [List.length_take]
          rw [List.length_cons] at hlen ⊢
          omega

/-- Round trip at any width in (0, 64): unpacking the packed bitstream of a
nonempty index list of valid indices reproduces the list. -/
theorem roundtrip_general (bpi p : Nat) (hb1 : 1 ≤ bpi) (hb64 : bpi < 64)
    (hp : p ≤ 2 ^ bpi) (idxs : List Nat) (hne : idxs ≠ [])
    (hall : ∀ v ∈ idxs, v < p) :
    unpackAux (packIndices bpi idxs) bpi p idxs.length 0 0 = .ok idxs := by
  have hk : 1 ≤ 64 / bpi := (Nat.le_div_iff_mul_le (by omega)).mpr (by omega)
  cases hpg : packGroups (64 / bpi) idxs.length idxs with
  | nil =>
    have hfl := packGroups_flatten (64 / bpi) hk idxs.length idxs (Nat.le_refl _)
    rw [hpg] at hfl
    cases hne hfl.symm
  | cons g gs =>
    have hfl := packGroups_flatten (64 / bpi) hk idxs.length idxs (Nat.le_refl _)
    have hwf := packGroups_wf (64 / bpi) hk idxs.length idxs (Nat.le_refl _)
    rw [hpg] at hfl hwf
    have hlen : idxs.length = (g.length - 0) + (gs.map List.length).sum := by
      rw [← hfl, List.length_flatten, List.map_cons, List.sum_cons]
      omega
    have h := unpack_go bpi p hb1 hb64 hp idxs.length g gs [] 0 hwf
      (fun v hv => hall v (by
        rw [← hfl]
        exact List.mem_flatten.mpr ⟨g, List.mem_cons_self g gs, hv⟩))
      (fun l hl v hv => hall v (by
        rw [← hfl]
        exact List.mem_flatten.mpr ⟨l, List.mem_cons_of_mem g hl, hv⟩))
      (by omega) hlen
    rw [List.nil_append, List.length_nil, Nat.zero_mul, List.drop_zero] at h
    rw [packIndices, hpg, h]
    rw [show g ++ gs.flatten = (g :: gs).flatten from List.flatten_cons.symm, hfl]

/-- C2: for each palette length p in {2, 15, 16, 17, 255, 256, 4096} and the
bit width the decoder derives from it, packing any 4096 indices below p
into the word-boundary-respecting bitstream and running the decoder loop
reproduces the 4096 indices exactly, in order. -/
theorem c2_roundtrip (p : Nat)
    (hp : p = 2 ∨ p = 15 ∨ p = 16 ∨ p = 17 ∨ p = 255 ∨ p = 256 ∨ p = 4096)
    (idxs : List Nat) (hlen : idxs.length = 4096) (hall : ∀ v ∈ idxs, v < p) :
    unpackAux (packIndices (bitsPerIndex p) idxs) (bitsPerIndex p) p 4096 0 0 =
      .ok idxs := by
  have hne : idxs ≠ [] := by
    intro h
    rw [h] at hlen
    simp at hlen
  rw [← hlen]
  rcases hp with rfl | rfl | rfl | rfl | rfl | rfl | rfl <;>
    exact roundtrip_general _ _ (by decide) (by decide) (by decide) idxs hne hall

/-- Witness for C2 at p = 2 and 4096 copies of the index 1. -/
theorem c2_roundtrip_witness :
    ((2 : Nat) = 2 ∨ (2 : Nat) = 15 ∨ (2 : Nat) = 16 ∨ (2 : Nat) = 17 ∨
      (2 : Nat) = 255 ∨ (2 : Nat) = 256 ∨ (2 : Nat) = 4096) ∧
    (List.replicate 4096 1).length = 4096 ∧
    unpackAux (packIndices (bitsPerIndex 2) (List.replicate 4096 1)) (bitsPerIndex 2)
      2 4096 0 0 = .ok (List.replicate 4096 1) :=
  ⟨Or.inl rfl, by rw [List.length_replicate],
   c2_roundtrip 2 (Or.inl rfl) _ (by rw [List.length_replicate])
     (fun v hv => by rw [List.eq_of_mem_replicate hv]; omega)⟩

end Mca
